import Mathlib

/-!
Verification of the Telegraph uploader bot (`main.py`): a shallow embedding of
the photo handler, the text handler, and the text-to-article content
transformation (emoji-markup stripping, title-line extraction, line-break to
`<br>` replacement), together with proofs of the specified properties.

Python strings are modelled as Lean `String` / `List Char`; each effectful
call of a handler (placeholder reply, attachment download, upload, account
creation, page creation) is modelled by an `Outcome` drawn from an
environment record, and the handler body is transcribed as a pure function
from that environment to the observable final state (placeholder text,
scratch-file/directory existence, log entries, propagated exception).
Reply edits are treated as plain outputs of the handler (the transport is an
external collaborator), matching the specification's boundary.
-/

/-- Python exception values relevant to the handlers: `FileNotFoundError`,
`ValueError`, and any other `Exception`, each carrying its description
`str(e)`. -/
inductive Exc where
  | fnf (msg : String)
  | valueErr (msg : String)
  | other (msg : String)
deriving DecidableEq

/-- Description `str(e)` of an exception. -/
def excMsg : Exc → String
  | .fnf m => m
  | .valueErr m => m
  | .other m => m

/-- Outcome of one effectful call: a normal return value or a raised
exception. -/
inductive Outcome (α : Type) where
  | ok (a : α)
  | exc (e : Exc)
deriving DecidableEq

/-- Exception that escapes a handler invocation.  Referencing the placeholder
variable `msg` inside an `except` block when `message.reply_text` itself
raised gives Python's unbound-local error. -/
inductive PropagatedExc where
  | unboundLocal
deriving DecidableEq

/-- The placeholder text `"ᴘʀᴏᴄᴇꜱꜱɪɴɢ...⏳"` sent by both handlers
(main.py lines 140 and 166). -/
def PROCESSING : String := "ᴘʀᴏᴄᴇꜱꜱɪɴɢ...⏳"

/-- The fixed message of the `ValueError` branch of the text handler
(main.py line 194). -/
def UNABLE : String := "ᴜɴᴀʙʟᴇ ᴛᴏ ɢᴇɴᴇʀᴀᴛᴇ ɪɴꜱᴛᴀɴᴛ ᴠɪᴇᴡ ʟɪɴᴋ."

/-- The formatted error reply `f"**ᴇʀʀᴏʀ:**\n{e}"` (main.py lines 156, 197). -/
def errText (e : Exc) : String := "**ᴇʀʀᴏʀ:**\n" ++ excMsg e

/-- Environment of one photo-handler invocation: outcomes of the three
effectful calls that can raise (`reply_text`, `download`, `upload_file`).
`download`'s payload is the local file path, `upload`'s payload is
`media_upload[0]`, the relative path returned by the endpoint. -/
structure PhotoEnv where
  reply : Outcome Unit
  download : Outcome String
  upload : Outcome String
deriving DecidableEq

/-- Observable final state of a photo-handler invocation. -/
structure PhotoResult where
  placeholder : Option String
  fileExists : Bool
  dirExists : Bool
  logs : List String
  raised : Option PropagatedExc
deriving DecidableEq

/-- Transcription of `photo_handler` (main.py lines 134-156).  The `try` body
sends the placeholder, creates the scratch directory, downloads the file,
uploads it, edits the placeholder to `"https://telegra.ph" ++ path`, then
removes the file and the directory; `except FileNotFoundError` swallows
silently; `except Exception` logs and edits the placeholder, which raises an
unbound-local error when the placeholder was never created. -/
def photoHandler (env : PhotoEnv) : PhotoResult :=
  match env.reply with
  | .exc e =>
    match e with
    | .fnf _ => ⟨none, false, false, [], none⟩
    | _ => ⟨none, false, false, [excMsg e], some .unboundLocal⟩
  | .ok _ =>
    match env.download with
    | .exc e =>
      match e with
      | .fnf _ => ⟨some PROCESSING, false, true, [], none⟩
      | _ => ⟨some (errText e), false, true, [excMsg e], none⟩
    | .ok _ =>
      match env.upload with
      | .exc e =>
        match e with
        | .fnf _ => ⟨some PROCESSING, true, true, [], none⟩
        | _ => ⟨some (errText e), true, true, [excMsg e], none⟩
      | .ok path =>
        ⟨some ("https://telegra.ph" ++ path), false, false, [], none⟩

/-- Characters matched by Python's `\s` (equivalently `str.isspace`), used by
the regex `\s*` of `TITLE_PATTERN` and by `str.strip`. -/
def isPySpace (c : Char) : Bool :=
  c = ' ' || c = '\t' || c = '\n' || c = '\r' ||
  c = '\x0b' || c = '\x0c' || c = '\x1c' || c = '\x1d' || c = '\x1e' ||
  c = '\x1f' || c = '\x85' || c = '\xa0' ||
  c = '\u1680' || ('\u2000' ≤ c && c ≤ '\u200a') ||
  c = '\u2028' || c = '\u2029' || c = '\u202f' || c = '\u205f' || c = '\u3000'

/-- `str.strip()` on a character list: whitespace removed from both ends. -/
def pyStripL (l : List Char) : List Char :=
  ((l.dropWhile isPySpace).reverse.dropWhile isPySpace).reverse

/-- `str.strip()` on a string. -/
def pyStrip (s : String) : String := String.mk (pyStripL s.data)

/-- Strip a literal prefix from a character list, returning the remainder. -/
def stripPrefixL : List Char → List Char → Option (List Char)
  | [], s => some s
  | _ :: _, [] => none
  | p :: ps, c :: cs => if c = p then stripPrefixL ps cs else none

/-- Strip a literal prefix case-insensitively (pattern given in lowercase),
modelling `re.IGNORECASE` matching of an ASCII literal. -/
def stripPrefixCI : List Char → List Char → Option (List Char)
  | [], s => some s
  | _ :: _, [] => none
  | p :: ps, c :: cs => if c.toLower = p then stripPrefixCI ps cs else none

/-- The literal head `<emoji id="` of `EMOJI_PATTERN` (main.py line 88). -/
def openLit : List Char := ['<', 'e', 'm', 'o', 'j', 'i', ' ', 'i', 'd', '=', '"']

/-- The literal tail `">` of `EMOJI_PATTERN`. -/
def closeBrk : List Char := ['"', '>']

/-- The closing tag `</emoji>` removed by `.replace("</emoji>", "")`
(main.py line 171). -/
def closeLit : List Char := ['<', '/', 'e', 'm', 'o', 'j', 'i', '>']

/-- Match `EMOJI_PATTERN`, the regex `<emoji id="\d+">`, at the head of a
character list; on success return the remainder after the tag.  (`\d` is
modelled by ASCII digits.) -/
def matchOpen (s : List Char) : Option (List Char) :=
  match stripPrefixL openLit s with
  | none => none
  | some t =>
    if (t.takeWhile Char.isDigit).isEmpty then none
    else stripPrefixL closeBrk (t.dropWhile Char.isDigit)

/-- Fuel-indexed scan of `re.sub(EMOJI_PATTERN, "", content)`: delete every
non-overlapping leftmost match of the opening tag.  With fuel at least the
length of the input the fuel never runs out. -/
def stripOpenGo : Nat → List Char → List Char
  | 0, s => s
  | _ + 1, [] => []
  | f + 1, c :: cs =>
    match matchOpen (c :: cs) with
    | some rest => stripOpenGo f rest
    | none => c :: stripOpenGo f cs

/-- `re.sub(EMOJI_PATTERN, "", content)` on a character list. -/
def stripOpenL (s : List Char) : List Char := stripOpenGo s.length s

/-- Fuel-indexed scan of `.replace("</emoji>", "")`: delete every
non-overlapping leftmost occurrence of the closing tag. -/
def removeCloseGo : Nat → List Char → List Char
  | 0, s => s
  | _ + 1, [] => []
  | f + 1, c :: cs =>
    match stripPrefixL closeLit (c :: cs) with
    | some rest => removeCloseGo f rest
    | none => c :: removeCloseGo f cs

/-- `.replace("</emoji>", "")` on a character list. -/
def removeCloseL (s : List Char) : List Char := removeCloseGo s.length s

/-- Line 171 of main.py: `re.sub(EMOJI_PATTERN, "", content).replace("</emoji>", "")`. -/
def stripEmoji (s : String) : String :=
  String.mk (removeCloseL (stripOpenL s.data))

/-- The literal word of `TITLE_PATTERN` (main.py line 89), in lowercase. -/
def titleLit : List Char := ['t', 'i', 't', 'l', 'e']

/-- The `:?` part of `TITLE_PATTERN`: drop one leading colon if present. -/
def dropColon (t : List Char) : List Char :=
  match t with
  | c :: r => if c = ':' then r else c :: r
  | [] => []

/-- Attempt `TITLE_PATTERN` (`^title:?\s*(.*)`, `IGNORECASE|MULTILINE`) at a
line start: on success return the capture group `(.*)`, that is the greedy
run of non-newline characters after the greedy whitespace run, together with
the remainder of the input after the match. -/
def matchTitleAt (s : List Char) : Option (List Char × List Char) :=
  match stripPrefixCI titleLit s with
  | none => none
  | some t =>
    let u := (dropColon t).dropWhile isPySpace
    some (u.takeWhile (· != '\n'), u.dropWhile (· != '\n'))

/-- Fuel-indexed leftmost search of `TITLE_PATTERN` over every line start
(position `0` and each position following a `'\n'`).  On success return
`(pre, group1, post)` where `pre` is the text before the match and `post` the
text after it, so deleting the match (`re.sub` with `count=1`) leaves
`pre ++ post`. -/
def findTitleGo : Nat → List Char → Option (List Char × List Char × List Char)
  | 0, _ => none
  | f + 1, s =>
    match matchTitleAt s with
    | some (g, post) => some ([], g, post)
    | none =>
      match s.dropWhile (· != '\n') with
      | [] => none
      | _ :: rest =>
        match findTitleGo f rest with
        | none => none
        | some (pre, g, post) =>
          some (s.takeWhile (· != '\n') ++ '\n' :: pre, g, post)

/-- `re.search(TITLE_PATTERN, content)` (and the span deleted by
`re.sub(TITLE_PATTERN, "", content, count=1)`). -/
def findTitleL (s : List Char) : Option (List Char × List Char × List Char) :=
  findTitleGo s.length s

/-- Decidable form of "some line of the text begins with the literal word
`title` (case-insensitively)" — exactly the condition under which
`TITLE_PATTERN` has a match, since the `:?\s*(.*)` tail always succeeds.
The scan visits every line start, mirroring `findTitleGo`. -/
def hasTitleGo : Nat → List Char → Bool
  | 0, _ => false
  | f + 1, s =>
    (stripPrefixCI titleLit s).isSome ||
      (match s.dropWhile (· != '\n') with
       | [] => false
       | _ :: rest => hasTitleGo f rest)

/-- Whether `TITLE_PATTERN` matches anywhere in the string. -/
def hasTitleLine (s : String) : Bool := hasTitleGo s.data.length s.data

/-- The `<br>` marker inserted by `content.replace("\n", "<br>")`
(main.py line 178). -/
def brL : List Char := ['<', 'b', 'r', '>']

/-- `content.replace("\n", "<br>")` on a character list. -/
def brify : List Char → List Char
  | [] => []
  | c :: cs => if c = '\n' then brL ++ brify cs else c :: brify cs

/-- Lines 170-178 of `text_handler`: strip emoji markup, look for a title
line (title is its capture group stripped, and the match is deleted and the
remainder stripped; otherwise the title is the sender's first name and the
body is left unstripped), then replace every newline by `<br>`.  Returns
`(title, html_content)` as passed to `create_page`. -/
def processText (text firstName : String) : String × String :=
  let content := stripEmoji text
  match findTitleL content.data with
  | some (pre, g, post) =>
    (String.mk (pyStripL g), String.mk (brify (pyStripL (pre ++ post))))
  | none => (firstName, String.mk (brify content.data))

/-- Line 179-183 of main.py: the author URL is
`f"https://telegram.dog/{username}"` when the sender's handle is truthy
(present and non-empty), otherwise `None`. -/
def authorUrlOf (username : Option String) : Option String :=
  match username with
  | none => none
  | some u => if u = "" then none else some ("https://telegram.dog/" ++ u)

/-- Arguments passed to `Telegraph.create_page` (main.py lines 184-189). -/
structure PageReq where
  title : String
  htmlContent : String
  authorName : String
  authorUrl : Option String
deriving DecidableEq

/-- Environment of one text-handler invocation: outcomes of `reply_text`,
`create_account` (payload: the access token) and `create_page` (payload: the
returned page path). -/
structure TextEnv where
  reply : Outcome Unit
  createAccount : Outcome String
  createPage : Outcome String
deriving DecidableEq

/-- Observable final state of a text-handler invocation. -/
structure TextResult where
  placeholder : Option String
  logs : List String
  pageRequest : Option PageReq
  raised : Option PropagatedExc
deriving DecidableEq

/-- Transcription of `text_handler` (main.py lines 159-197).  The `try` body
sends the placeholder, creates an account, transforms the text via
`processText`, computes the author URL, calls `create_page` and edits the
placeholder to `"https://telegra.ph/" ++ path`; `except ValueError` logs and
edits the placeholder to `UNABLE`; `except Exception` logs and edits the
placeholder to the formatted error.  Either edit raises an unbound-local
error when `reply_text` itself failed. -/
def textHandler (env : TextEnv) (text firstName : String)
    (username : Option String) : TextResult :=
  match env.reply with
  | .exc e => ⟨none, [excMsg e], none, some .unboundLocal⟩
  | .ok _ =>
    match env.createAccount with
    | .exc e =>
      match e with
      | .valueErr m => ⟨some UNABLE, [m], none, none⟩
      | _ => ⟨some (errText e), [excMsg e], none, none⟩
    | .ok _ =>
      let tb := processText text firstName
      let req : PageReq := ⟨tb.1, tb.2, firstName, authorUrlOf username⟩
      match env.createPage with
      | .exc e =>
        match e with
        | .valueErr m => ⟨some UNABLE, [m], some req, none⟩
        | _ => ⟨some (errText e), [excMsg e], some req, none⟩
      | .ok path => ⟨some ("https://telegra.ph/" ++ path), [], some req, none⟩

/-- Prefix test on character lists. -/
def isPrefixL : List Char → List Char → Bool
  | [], _ => true
  | _ :: _, [] => false
  | p :: ps, c :: cs => p = c && isPrefixL ps cs

/-- Substring test on character lists (occurrence at any position). -/
def hasSubL (p : List Char) : List Char → Bool
  | [] => p.isEmpty
  | c :: cs => isPrefixL p (c :: cs) || hasSubL p cs

/-- The two-character openings that can start either emoji tag. -/
def leLit : List Char := ['<', 'e']

/-- The two-character opening of the closing tag. -/
def slLit : List Char := ['<', '/']

/-- The full opening tag `<emoji id="` ++ digits ++ `">` as a list. -/
def openTagL (d : List Char) : List Char := openLit ++ d ++ closeBrk

/-- Number of newline characters in a character list. -/
def countNl : List Char → Nat
  | [] => 0
  | c :: cs => (if c = '\n' then 1 else 0) + countNl cs

/-- Number of positions at which `p` occurs as a substring. -/
def countSub (p : List Char) : List Char → Nat
  | [] => 0
  | c :: cs => (if isPrefixL p (c :: cs) then 1 else 0) + countSub p cs

/-- Claim C5: in the photo flow, when the download succeeds and the upload
endpoint returns a relative path, the placeholder is finally edited to
exactly the hosting domain concatenated with that path, and afterwards the
scratch file and the scratch directory no longer exist (and nothing is
logged, and the handler returns normally). -/
theorem photo_success_reply_and_cleanup (fp p : String) :
    photoHandler ⟨.ok (), .ok fp, .ok p⟩ =
      ⟨some ("https://telegra.ph" ++ p), false, false, [], none⟩ := rfl

/-- Claim C6: in the photo flow, a `FileNotFoundError` raised by the download
step is swallowed silently: the placeholder still shows the processing
message, nothing is logged, and the handler returns normally. -/
theorem photo_fnf_silent (m : String) (up : Outcome String) :
    photoHandler ⟨.ok (), .exc (.fnf m), up⟩ =
      ⟨some PROCESSING, false, true, [], none⟩ := rfl

/-- Claim C7, counterexample: when the download raises `FileNotFoundError`
(the "file vanished" case) the scratch directory is NOT deleted — cleanup is
skipped on this path, contradicting the claim that file and directory are
deleted on both success and the file-vanished case. -/
theorem photo_cleanup_counterexample :
    (photoHandler ⟨.ok (), .exc (.fnf "file vanished"),
        .ok "/file/a.jpg"⟩).dirExists = true := rfl

/-- Claim C7, amended: the scratch file and directory are deleted only on the
success path; on the file-vanished (`FileNotFoundError`) case and on any
other caught failure the cleanup is skipped and the scratch directory (and
the downloaded file, when it was created) is left behind. -/
theorem photo_cleanup_amended (fp p m : String) (up : Outcome String) :
    (photoHandler ⟨.ok (), .ok fp, .ok p⟩).fileExists = false ∧
    (photoHandler ⟨.ok (), .ok fp, .ok p⟩).dirExists = false ∧
    (photoHandler ⟨.ok (), .exc (.fnf m), up⟩).dirExists = true ∧
    (photoHandler ⟨.ok (), .exc (.other m), up⟩).dirExists = true ∧
    (photoHandler ⟨.ok (), .ok fp, .exc (.other m)⟩).fileExists = true ∧
    (photoHandler ⟨.ok (), .ok fp, .exc (.other m)⟩).dirExists = true :=
  ⟨rfl, rfl, rfl, rfl, rfl, rfl⟩

/-- Claim C8: in the text flow, a `ValueError` during page creation edits the
placeholder to the fixed "unable to generate" message, while any other
exception is logged and edits the placeholder to the formatted error message
embedding the exception's description; in both cases the handler returns
normally (no propagation). -/
theorem text_error_branches (tok m text fn : String) (un : Option String) :
    (textHandler ⟨.ok (), .ok tok, .exc (.valueErr m)⟩ text fn un).placeholder
        = some UNABLE ∧
    (textHandler ⟨.ok (), .ok tok, .exc (.valueErr m)⟩ text fn un).raised
        = none ∧
    (textHandler ⟨.ok (), .ok tok, .exc (.other m)⟩ text fn un).placeholder
        = some ("**ᴇʀʀᴏʀ:**\n" ++ m) ∧
    (textHandler ⟨.ok (), .ok tok, .exc (.other m)⟩ text fn un).logs = [m] ∧
    (textHandler ⟨.ok (), .ok tok, .exc (.other m)⟩ text fn un).raised
        = none ∧
    (textHandler ⟨.ok (), .ok tok, .exc (.fnf m)⟩ text fn un).placeholder
        = some ("**ᴇʀʀᴏʀ:**\n" ++ m) ∧
    (textHandler ⟨.ok (), .ok tok, .exc (.fnf m)⟩ text fn un).logs = [m] ∧
    (textHandler ⟨.ok (), .ok tok, .exc (.fnf m)⟩ text fn un).raised = none :=
  ⟨rfl, rfl, rfl, rfl, rfl, rfl, rfl, rfl⟩

/-- Claim C9: whenever the text flow reaches page creation, the author URL it
passes is `authorUrlOf username`: `none` when the sender has no (or an
empty) handle — never an empty or malformed URL — and the fixed author-link
domain followed by the handle otherwise. -/
theorem author_url_handling (tok text fn : String) (cp : Outcome String)
    (un : Option String) :
    (textHandler ⟨.ok (), .ok tok, cp⟩ text fn un).pageRequest =
      some ⟨(processText text fn).1, (processText text fn).2, fn,
        authorUrlOf un⟩ ∧
    authorUrlOf none = none ∧
    (∀ u : String, u ≠ "" →
      authorUrlOf (some u) = some ("https://telegram.dog/" ++ u)) ∧
    (∀ url : String, authorUrlOf un = some url → url ≠ "") := by
  refine ⟨?_, rfl, ?_, ?_⟩
  · cases cp with
    | ok p => rfl
    | exc e => cases e <;> rfl
  · intro u hu
    simp only [authorUrlOf, if_neg hu]
  · intro url h hurl
    cases un with
    | none => exact Option.noConfusion h
    | some u =>
      by_cases hu : u = ""
      · simp only [authorUrlOf, if_pos hu] at h
        exact Option.noConfusion h
      · simp only [authorUrlOf, if_neg hu, Option.some.injEq] at h
        have h2 := congrArg String.length (h.trans hurl)
        rw [String.length_append] at h2
        have e1 : ("https://telegram.dog/" : String).length = 21 := rfl
        have e2 : ("" : String).length = 0 := rfl
        rw [e1, e2] at h2
        omega

/-- Claim C10: in both handlers, if the initial placeholder-creation reply
itself raises a generic exception, the `except` branch references the
never-bound placeholder variable, so the invocation fails with a secondary
unbound-local error and no message ever reaches the user. -/
theorem unbound_placeholder_on_reply_failure (m m2 text fn : String)
    (dl up ca cp : Outcome String) (un : Option String) :
    (photoHandler ⟨.exc (.other m), dl, up⟩).raised = some .unboundLocal ∧
    (photoHandler ⟨.exc (.other m), dl, up⟩).placeholder = none ∧
    (textHandler ⟨.exc (.other m2), ca, cp⟩ text fn un).raised
        = some .unboundLocal ∧
    (textHandler ⟨.exc (.other m2), ca, cp⟩ text fn un).placeholder = none :=
  ⟨rfl, rfl, rfl, rfl⟩

/-- `TITLE_PATTERN` fails at a position exactly when the case-insensitive
literal `title` fails there, since the `:?\s*(.*)` tail always matches. -/
lemma matchTitleAt_eq_none (s : List Char)
    (h : (stripPrefixCI titleLit s).isSome = false) : matchTitleAt s = none := by
  cases hst : stripPrefixCI titleLit s with
  | none => simp [matchTitleAt, hst]
  | some t => rw [hst] at h; simp at h

/-- If no line start matches the title pattern, the search finds nothing. -/
lemma findTitleGo_eq_none : ∀ (f : Nat) (s : List Char),
    hasTitleGo f s = false → findTitleGo f s = none := by
  intro f
  induction f with
  | zero => intro s _; rfl
  | succ f ih =>
    intro s h
    simp only [hasTitleGo, Bool.or_eq_false_iff] at h
    obtain ⟨h1, h2⟩ := h
    simp only [findTitleGo, matchTitleAt_eq_none s h1]
    cases hd : s.dropWhile (· != '\n') with
    | nil => simp
    | cons c rest =>
      simp only [hd] at h2
      simp [ih rest h2]

/-- Claim C1: if the emoji-stripped message body has no line beginning with
the literal word `title` (case-insensitively) — i.e. no line matching
`TITLE_PATTERN` — then the resulting article title is the sender's first
name. -/
theorem title_fallback_of_no_title_line (text fn : String)
    (h : hasTitleLine (stripEmoji text) = false) :
    (processText text fn).1 = fn := by
  have h2 : findTitleL (stripEmoji text).data = none :=
    findTitleGo_eq_none _ _ h
  simp [processText, h2]

/-- Witness for claim C1 at the spec's concrete scenario
`"Hello\nworld"` with sender first name `"Alice"`. -/
theorem title_fallback_of_no_title_line_witness :
    hasTitleLine (stripEmoji "Hello\nworld") = false ∧
    (processText "Hello\nworld" "Alice").1 = "Alice" :=
  ⟨by decide, title_fallback_of_no_title_line "Hello\nworld" "Alice" (by decide)⟩

/-- `String.mk` and `toList` are inverse. -/
lemma toList_mk (l : List Char) : (String.mk l).toList = l := rfl

/-- The `<br>` substitution leaves no newline behind. -/
lemma countNl_brify (l : List Char) : countNl (brify l) = 0 := by
  induction l with
  | nil => rfl
  | cons c cs ih =>
    by_cases hc : c = '\n'
    · simp [brify, hc, brL, countNl, ih]
    · simp [brify, hc, countNl, ih]

/-- A pattern free of `'<'` and `'\n'` that occurs at the head of `brify cs`
already occurs at the head of `cs`. -/
lemma isPrefixL_of_brify : ∀ (p cs : List Char),
    (∀ a ∈ p, a ≠ '<' ∧ a ≠ '\n') → isPrefixL p (brify cs) = true →
    isPrefixL p cs = true := by
  intro p
  induction p with
  | nil => intro cs _ _; rfl
  | cons a p' ih =>
    intro cs hp h
    cases cs with
    | nil => simp [brify, isPrefixL] at h
    | cons d ds =>
      by_cases hd : d = '\n'
      · subst hd
        simp only [brify, if_true, brL, List.cons_append, List.nil_append] at h
        simp only [isPrefixL, Bool.and_eq_true, decide_eq_true_eq] at h
        exact absurd h.1 (hp a (List.mem_cons_self a p')).1
      · simp only [brify, if_neg hd] at h
        simp only [isPrefixL, Bool.and_eq_true, decide_eq_true_eq] at h ⊢
        exact ⟨h.1, ih ds (fun b hb => hp b (List.mem_cons_of_mem a hb)) h.2⟩

/-- Counting `<br>` at the head of an inserted marker. -/
lemma countSub_br_cons (Z : List Char) :
    countSub brL ('<' :: 'b' :: 'r' :: '>' :: Z) = 1 + countSub brL Z := by
  simp [countSub, isPrefixL, brL]

/-- When the body contains no pre-existing `<br>`, the substitution produces
exactly one `<br>` occurrence per newline. -/
lemma countSub_brify (l : List Char) (h : hasSubL brL l = false) :
    countSub brL (brify l) = countNl l := by
  induction l with
  | nil => rfl
  | cons c cs ih =>
    simp only [hasSubL, Bool.or_eq_false_iff] at h
    obtain ⟨h1, h2⟩ := h
    by_cases hc : c = '\n'
    · subst hc
      have hbr : brify ('\n' :: cs) = '<' :: 'b' :: 'r' :: '>' :: brify cs := by
        simp [brify, brL]
      rw [hbr, countSub_br_cons, ih h2]
      simp [countNl]
    · have hpre : isPrefixL brL (c :: brify cs) = false := by
        by_contra hq
        rw [Bool.not_eq_false] at hq
        simp only [brL, isPrefixL, Bool.and_eq_true, decide_eq_true_eq] at hq
        obtain ⟨hcc, htail⟩ := hq
        subst hcc
        have h3 := isPrefixL_of_brify ['b', 'r', '>'] cs (by decide) htail
        simp [brL, isPrefixL, h3] at h1
      simp [brify, hc, countSub, hpre, countNl, ih h2]

/-- Claim C4, counterexample: the input `"a<br>b"` has no newline at all and
no title line, yet the produced body `"a<br>b"` contains one occurrence of
`<br>`, so the produced HTML does not contain exactly `N` occurrences of
`<br>` for an input body with `N` newlines. -/
theorem br_count_counterexample :
    (processText "a<br>b" "Alice").2 = "a<br>b" ∧
    countNl "a<br>b".data = 0 ∧
    countSub brL ((processText "a<br>b" "Alice").2.data) = 1 :=
  ⟨by decide, by decide, by decide⟩

/-- Claim C4, amended: the produced HTML body never contains a bare newline;
and for a message without emoji markup, without a title line (so that the
body fed to the line-break transformation is the message text itself), and
containing no pre-existing literal `<br>`, the produced body contains
exactly `N` occurrences of `<br>` where `N` is the number of newlines in the
text. -/
theorem br_transform_amended :
    (∀ (text fn : String), countNl ((processText text fn).2.data) = 0) ∧
    (∀ (text fn : String), stripEmoji text = text →
      hasTitleLine text = false → hasSubL brL text.data = false →
      countSub brL ((processText text fn).2.data) = countNl text.data) := by
  constructor
  · intro text fn
    simp only [processText]
    cases hf : findTitleL (stripEmoji text).data with
    | none => simp [hf, toList_mk, countNl_brify]
    | some pgp =>
      obtain ⟨pre, g, post⟩ := pgp
      simp [hf, toList_mk, countNl_brify]
  · intro text fn he ht hb
    have h2 : findTitleL text.data = none := findTitleGo_eq_none _ _ ht
    simp only [processText, he, h2]
    exact countSub_brify text.data hb

/-- Witness for claim C4 (amended) at `"Hello\nworld"`: one newline, one
`<br>` occurrence. -/
theorem br_transform_amended_witness :
    stripEmoji "Hello\nworld" = "Hello\nworld" ∧
    hasTitleLine "Hello\nworld" = false ∧
    hasSubL brL "Hello\nworld".data = false ∧
    countSub brL ((processText "Hello\nworld" "Alice").2.data) =
      countNl "Hello\nworld".data :=
  ⟨by decide, by decide, by decide,
    br_transform_amended.2 "Hello\nworld" "Alice" (by decide) (by decide)
      (by decide)⟩

/-- Stripping a literal prefix off itself plus a remainder. -/
lemma stripPrefixL_self_app : ∀ (p r : List Char),
    stripPrefixL p (p ++ r) = some r := by
  intro p
  induction p with
  | nil => intro r; rfl
  | cons c cs ih => intro r; simp [stripPrefixL, ih r]

/-- `EMOJI_PATTERN` cannot match at a position whose first two characters
are not `<e`. -/
lemma matchOpen_none (c : Char) (cs : List Char)
    (h : c ≠ '<' ∨ cs.head? ≠ some 'e') : matchOpen (c :: cs) = none := by
  rcases h with h | h
  · simp [matchOpen, openLit, stripPrefixL, h]
  · cases cs with
    | nil => simp [matchOpen, openLit, stripPrefixL]
    | cons d ds =>
      simp only [List.head?_cons, ne_eq, Option.some.injEq] at h
      by_cases hc : c = '<'
      · simp [matchOpen, openLit, stripPrefixL, hc, h]
      · simp [matchOpen, openLit, stripPrefixL, hc]

/-- The closing tag cannot occur at a position whose first two characters
are not `</`. -/
lemma closeFail (c : Char) (cs : List Char)
    (h : c ≠ '<' ∨ cs.head? ≠ some '/') :
    stripPrefixL closeLit (c :: cs) = none := by
  rcases h with h | h
  · simp [closeLit, stripPrefixL, h]
  · cases cs with
    | nil => simp [closeLit, stripPrefixL]
    | cons d ds =>
      simp only [List.head?_cons, ne_eq, Option.some.injEq] at h
      by_cases hc : c = '<'
      · simp [closeLit, stripPrefixL, hc, h]
      · simp [closeLit, stripPrefixL, hc]

/-- `takeWhile` over an append whose first part satisfies the predicate. -/
lemma takeWhile_app_all {α : Type} {p : α → Bool} : ∀ (l r : List α),
    (∀ a ∈ l, p a = true) → (l ++ r).takeWhile p = l ++ r.takeWhile p := by
  intro l
  induction l with
  | nil => intro r _; rfl
  | cons c cs ih =>
    intro r h
    have hc := h c (List.mem_cons_self c cs)
    simp [List.takeWhile_cons, hc, ih r (fun a ha => h a (List.mem_cons_of_mem c ha))]

/-- `dropWhile` over an append whose first part satisfies the predicate. -/
lemma dropWhile_app_all {α : Type} {p : α → Bool} : ∀ (l r : List α),
    (∀ a ∈ l, p a = true) → (l ++ r).dropWhile p = r.dropWhile p := by
  intro l
  induction l with
  | nil => intro r _; rfl
  | cons c cs ih =>
    intro r h
    have hc := h c (List.mem_cons_self c cs)
    simp [List.dropWhile_cons, hc, ih r (fun a ha => h a (List.mem_cons_of_mem c ha))]

/-- `matchOpen` succeeds on a well-formed opening tag and consumes exactly
the tag. -/
lemma matchOpen_tag (d t : List Char) (hd1 : d ≠ [])
    (hd2 : ∀ c ∈ d, c.isDigit = true) :
    matchOpen (openTagL d ++ t) = some t := by
  have h0 : openTagL d ++ t = openLit ++ (d ++ ('"' :: '>' :: t)) := by
    simp [openTagL, closeBrk, List.append_assoc]
  rw [h0]
  have h1 : stripPrefixL openLit (openLit ++ (d ++ ('"' :: '>' :: t))) =
      some (d ++ ('"' :: '>' :: t)) := stripPrefixL_self_app _ _
  have h2 : (d ++ ('"' :: '>' :: t)).takeWhile Char.isDigit = d := by
    rw [takeWhile_app_all d _ hd2]
    simp [List.takeWhile_cons]
  have h3 : (d ++ ('"' :: '>' :: t)).dropWhile Char.isDigit =
      '"' :: '>' :: t := by
    rw [dropWhile_app_all d _ hd2]
    simp [List.dropWhile_cons]
  have h4 : d.isEmpty = false := by
    cases d with
    | nil => exact absurd rfl hd1
    | cons e es => rfl
  simp [matchOpen, h1, h2, h3, h4, closeBrk, stripPrefixL]

/-- The scans ignore an empty input regardless of fuel. -/
lemma stripOpenGo_nil (f : Nat) : stripOpenGo f [] = [] := by
  cases f <;> rfl

/-- The close-tag scan ignores an empty input regardless of fuel. -/
lemma removeCloseGo_nil (f : Nat) : removeCloseGo f [] = [] := by
  cases f <;> rfl

/-- One successful match step of the opening-tag scan. -/
lemma stripOpenGo_match_any (f : Nat) (s rest : List Char) (hs : 1 ≤ s.length)
    (hf : 1 ≤ f) (h : matchOpen s = some rest) :
    stripOpenGo f s = stripOpenGo (f - 1) rest := by
  cases s with
  | nil => simp at hs
  | cons c cs =>
    cases f with
    | zero => omega
    | succ f1 => simp [stripOpenGo, h]

/-- One successful removal step of the close-tag scan. -/
lemma removeCloseGo_match_any (f : Nat) (s rest : List Char)
    (hs : 1 ≤ s.length) (hf : 1 ≤ f)
    (h : stripPrefixL closeLit s = some rest) :
    removeCloseGo f s = removeCloseGo (f - 1) rest := by
  cases s with
  | nil => simp at hs
  | cons c cs =>
    cases f with
    | zero => omega
    | succ f1 => simp [removeCloseGo, h]

/-- The opening-tag scan copies verbatim a segment that contains no `<e`,
provided no match can start at the segment's last character. -/
lemma stripOpenGo_app : ∀ (seg : List Char) (f : Nat) (t : List Char),
    seg.length + t.length ≤ f →
    hasSubL leLit seg = false →
    (seg.getLast? = some '<' → t.head? ≠ some 'e') →
    stripOpenGo f (seg ++ t) = seg ++ stripOpenGo (f - seg.length) t := by
  intro seg
  induction seg with
  | nil => intro f t _ _ _; simp
  | cons c cs ih =>
    intro f t hf h1 h2
    simp only [hasSubL, Bool.or_eq_false_iff] at h1
    obtain ⟨h1a, h1b⟩ := h1
    cases f with
    | zero => simp at hf
    | succ f1 =>
      have hmn : matchOpen (c :: (cs ++ t)) = none := by
        apply matchOpen_none
        by_cases hc : c = '<'
        · subst hc
          right
          cases cs with
          | nil =>
            have ht := h2 rfl
            simpa using ht
          | cons d ds =>
            simp only [leLit, isPrefixL] at h1a
            simp only [List.cons_append, List.head?_cons, ne_eq,
              Option.some.injEq]
            intro hde
            simp [hde] at h1a
        · left; exact hc
      have hstep : stripOpenGo (f1 + 1) ((c :: cs) ++ t) =
          c :: stripOpenGo f1 (cs ++ t) := by
        simp only [List.cons_append]
        simp [stripOpenGo, hmn]
      have h2' : cs.getLast? = some '<' → t.head? ≠ some 'e' := by
        intro hl
        apply h2
        cases cs with
        | nil => simp at hl
        | cons d ds => rw [List.getLast?_cons_cons]; exact hl
      have hf' : cs.length + t.length ≤ f1 := by
        simp only [List.length_cons] at hf
        omega
      rw [hstep, ih f1 t hf' h1b h2']
      simp [Nat.succ_sub_succ]

/-- The close-tag scan copies verbatim a segment that contains no `</`,
provided no occurrence can start at the segment's last character. -/
lemma removeCloseGo_app : ∀ (seg : List Char) (f : Nat) (t : List Char),
    seg.length + t.length ≤ f →
    hasSubL slLit seg = false →
    (seg.getLast? = some '<' → t.head? ≠ some '/') →
    removeCloseGo f (seg ++ t) = seg ++ removeCloseGo (f - seg.length) t := by
  intro seg
  induction seg with
  | nil => intro f t _ _ _; simp
  | cons c cs ih =>
    intro f t hf h1 h2
    simp only [hasSubL, Bool.or_eq_false_iff] at h1
    obtain ⟨h1a, h1b⟩ := h1
    cases f with
    | zero => simp at hf
    | succ f1 =>
      have hmn : stripPrefixL closeLit (c :: (cs ++ t)) = none := by
        apply closeFail
        by_cases hc : c = '<'
        · subst hc
          right
          cases cs with
          | nil =>
            have ht := h2 rfl
            simpa using ht
          | cons d ds =>
            simp only [slLit, isPrefixL] at h1a
            simp only [List.cons_append, List.head?_cons, ne_eq,
              Option.some.injEq]
            intro hde
            simp [hde] at h1a
        · left; exact hc
      have hstep : removeCloseGo (f1 + 1) ((c :: cs) ++ t) =
          c :: removeCloseGo f1 (cs ++ t) := by
        simp only [List.cons_append]
        simp [removeCloseGo, hmn]
      have h2' : cs.getLast? = some '<' → t.head? ≠ some '/' := by
        intro hl
        apply h2
        cases cs with
        | nil => simp at hl
        | cons d ds => rw [List.getLast?_cons_cons]; exact hl
      have hf' : cs.length + t.length ≤ f1 := by
        simp only [List.length_cons] at hf
        omega
      rw [hstep, ih f1 t hf' h1b h2']
      simp [Nat.succ_sub_succ]

/-- String append acts as list append on the underlying data. -/
lemma data_app (s t : String) : (s ++ t).data = s.data ++ t.data := rfl

/-- Phase 1 of line 171: the opening-tag substitution removes exactly the
opening tag from a well-formed occurrence in clean surrounding text. -/
lemma stripOpenGo_clean (a d x b : List Char) (f : Nat) (hd1 : d ≠ [])
    (hd2 : ∀ c ∈ d, c.isDigit = true)
    (ha : hasSubL leLit a = false) (hx : hasSubL leLit x = false)
    (hb : hasSubL leLit b = false)
    (hf : a.length + d.length + x.length + b.length + 21 ≤ f) :
    stripOpenGo f (a ++ (openTagL d ++ (x ++ (closeLit ++ b)))) =
      a ++ (x ++ (closeLit ++ b)) := by
  have hlen1 : (openTagL d ++ (x ++ (closeLit ++ b))).length =
      13 + d.length + x.length + 8 + b.length := by
    simp [openTagL, openLit, closeBrk, closeLit]
    omega
  have h2a : a.getLast? = some '<' →
      (openTagL d ++ (x ++ (closeLit ++ b))).head? ≠ some 'e' := by
    intro _
    simp [openTagL, openLit]
  rw [stripOpenGo_app a f _ (by rw [hlen1]; omega) ha h2a]
  congr 1
  have e1 : stripOpenGo (f - a.length) (openTagL d ++ (x ++ (closeLit ++ b)))
      = stripOpenGo (f - a.length - 1) (x ++ (closeLit ++ b)) :=
    stripOpenGo_match_any _ _ _ (by rw [hlen1]; omega) (by omega)
      (matchOpen_tag d _ hd1 hd2)
  have e2 : stripOpenGo (f - a.length - 1) (x ++ (closeLit ++ b)) =
      x ++ stripOpenGo (f - a.length - 1 - x.length) (closeLit ++ b) :=
    stripOpenGo_app x _ _ (by simp [closeLit]; omega) hx
      (fun _ => by simp [closeLit])
  have e3 : stripOpenGo (f - a.length - 1 - x.length) (closeLit ++ b) =
      closeLit ++ stripOpenGo (f - a.length - 1 - x.length - 8) b := by
    have h7 := stripOpenGo_app closeLit (f - a.length - 1 - x.length) b
      (by simp [closeLit]; omega) (by decide)
      (fun h => absurd h (by decide))
    simpa [closeLit] using h7
  have e4 : stripOpenGo (f - a.length - 1 - x.length - 8) b = b := by
    have h5 := stripOpenGo_app b (f - a.length - 1 - x.length - 8) []
      (by simp; omega) hb (fun _ => by simp)
    rw [List.append_nil] at h5
    rw [h5, stripOpenGo_nil, List.append_nil]
  rw [e1, e2, e3, e4]

/-- Phase 2 of line 171: the close-tag removal deletes exactly the closing
tag of a well-formed occurrence in clean surrounding text. -/
lemma removeCloseGo_clean (a x b : List Char) (f : Nat)
    (ha : hasSubL slLit a = false) (hx : hasSubL slLit x = false)
    (hb : hasSubL slLit b = false)
    (hax : ¬(a.getLast? = some '<' ∧ x.head? = some '/'))
    (hf : a.length + x.length + b.length + 8 ≤ f) :
    removeCloseGo f (a ++ (x ++ (closeLit ++ b))) = a ++ (x ++ b) := by
  have h2a : a.getLast? = some '<' →
      (x ++ (closeLit ++ b)).head? ≠ some '/' := by
    intro hl
    cases x with
    | nil => simp [closeLit]
    | cons x0 xs =>
      simp only [List.cons_append, List.head?_cons, ne_eq, Option.some.injEq]
      intro h0
      exact hax ⟨hl, by simp [h0]⟩
  rw [removeCloseGo_app a f _ (by simp [closeLit]; omega) ha h2a]
  congr 1
  have e2 : removeCloseGo (f - a.length) (x ++ (closeLit ++ b)) =
      x ++ removeCloseGo (f - a.length - x.length) (closeLit ++ b) :=
    removeCloseGo_app x _ _ (by simp [closeLit]; omega) hx
      (fun _ => by simp [closeLit])
  have e3 : removeCloseGo (f - a.length - x.length) (closeLit ++ b) =
      removeCloseGo (f - a.length - x.length - 1) b :=
    removeCloseGo_match_any _ _ _ (by simp [closeLit]) (by omega)
      (stripPrefixL_self_app _ _)
  have e4 : removeCloseGo (f - a.length - x.length - 1) b = b := by
    have h5 := removeCloseGo_app b (f - a.length - x.length - 1) []
      (by simp; omega) hb (fun _ => by simp)
    rw [List.append_nil] at h5
    rw [h5, removeCloseGo_nil, List.append_nil]
  rw [e2, e3, e4]

/-- Claim C3: the emoji-stripping step reduces a well-formed occurrence of
`<emoji id="<digits>">inner</emoji>` to just its inner content, wherever it
appears in the body; the surrounding text and the inner text are kept
verbatim.  The hypotheses state well-formedness: the id is a non-empty digit
string, and the surrounding/inner segments contain no other tag openings
(no `<e` or `</` substring, and no closing tag straddling the boundary
between the preceding text and the inner text). -/
theorem emoji_markup_stripped (a d x b : String) (hd1 : d.data ≠ [])
    (hd2 : ∀ c ∈ d.data, c.isDigit = true)
    (ha1 : hasSubL leLit a.data = false) (ha2 : hasSubL slLit a.data = false)
    (hx1 : hasSubL leLit x.data = false) (hx2 : hasSubL slLit x.data = false)
    (hb1 : hasSubL leLit b.data = false) (hb2 : hasSubL slLit b.data = false)
    (hax : ¬(a.data.getLast? = some '<' ∧ x.data.head? = some '/')) :
    stripEmoji (a ++ "<emoji id=\"" ++ d ++ "\">" ++ x ++ "</emoji>" ++ b) =
      a ++ x ++ b := by
  have ho : ("<emoji id=\"" : String).data = openLit := rfl
  have hq : ("\">" : String).data = closeBrk := rfl
  have hc : ("</emoji>" : String).data = closeLit := rfl
  have hdata : (a ++ "<emoji id=\"" ++ d ++ "\">" ++ x ++ "</emoji>" ++ b).data
      = a.data ++ (openTagL d.data ++ (x.data ++ (closeLit ++ b.data))) := by
    simp [data_app, openTagL, openLit, closeBrk, closeLit, List.append_assoc]
  have hphase1 : stripOpenL
      (a.data ++ (openTagL d.data ++ (x.data ++ (closeLit ++ b.data)))) =
      a.data ++ (x.data ++ (closeLit ++ b.data)) := by
    apply stripOpenGo_clean a.data d.data x.data b.data _ hd1 hd2 ha1 hx1 hb1
    simp [openTagL, openLit, closeBrk, closeLit]
    omega
  have hphase2 : removeCloseL
      (a.data ++ (x.data ++ (closeLit ++ b.data))) =
      a.data ++ (x.data ++ b.data) := by
    apply removeCloseGo_clean a.data x.data b.data _ ha2 hx2 hb2 hax
    simp [closeLit]
    omega
  have hres : (a ++ x ++ b).data = a.data ++ (x.data ++ b.data) := by
    simp [data_app, List.append_assoc]
  calc stripEmoji (a ++ "<emoji id=\"" ++ d ++ "\">" ++ x ++ "</emoji>" ++ b)
      = String.mk (removeCloseL (stripOpenL
          (a.data ++ (openTagL d.data ++ (x.data ++ (closeLit ++ b.data)))))) := by
        rw [stripEmoji, hdata]
    _ = String.mk (a.data ++ (x.data ++ b.data)) := by rw [hphase1, hphase2]
    _ = a ++ x ++ b := by rw [← hres]

/-- Witness for claim C3: a concrete message with one emoji markup
occurrence in the middle. -/
theorem emoji_markup_stripped_witness :
    ("42" : String).data ≠ [] ∧
    (∀ c ∈ ("42" : String).data, c.isDigit = true) ∧
    stripEmoji ("he" ++ "<emoji id=\"" ++ "42" ++ "\">" ++ "smile" ++
        "</emoji>" ++ "llo") = "he" ++ "smile" ++ "llo" :=
  ⟨by decide, by decide,
    emoji_markup_stripped "he" "42" "smile" "llo" (by decide) (by decide)
      (by decide) (by decide) (by decide) (by decide) (by decide) (by decide)
      (by decide)⟩

/-- A case-insensitive prefix match extends over an appended remainder. -/
lemma stripPrefixCI_app : ∀ (p l r : List Char),
    stripPrefixCI p l = some [] → stripPrefixCI p (l ++ r) = some r := by
  intro p
  induction p with
  | nil =>
    intro l r h
    simp only [stripPrefixCI, Option.some.injEq] at h
    subst h
    rfl
  | cons pc ps ih =>
    intro l r h
    cases l with
    | nil => simp [stripPrefixCI] at h
    | cons c cs =>
      simp only [stripPrefixCI] at h ⊢
      by_cases hc : c.toLower = pc
      · rw [if_pos hc] at h ⊢
        exact ih cs r h
      · rw [if_neg hc] at h
        exact Option.noConfusion h

/-- The head of a `dropWhile` result falsifies the predicate. -/
lemma dropWhile_head_false {p : Char → Bool} : ∀ (l : List Char) (c : Char)
    (r : List Char), l.dropWhile p = c :: r → p c = false := by
  intro l
  induction l with
  | nil => intro c r h; simp at h
  | cons d ds ih =>
    intro c r h
    by_cases hd : p d
    · rw [List.dropWhile_cons, if_pos hd] at h
      exact ih c r h
    · rw [List.dropWhile_cons, if_neg hd] at h
      injection h with h1 h2
      subst h1
      simpa using hd

/-- `dropWhile` is idempotent. -/
lemma dropWhile_idem {p : Char → Bool} (l : List Char) :
    (l.dropWhile p).dropWhile p = l.dropWhile p := by
  cases hd : l.dropWhile p with
  | nil => rfl
  | cons c r =>
    rw [List.dropWhile_cons, if_neg]
    simp [dropWhile_head_false l c r hd]

/-- Stripping is insensitive to first removing leading whitespace. -/
lemma pyStripL_dropWhile (l : List Char) :
    pyStripL (l.dropWhile isPySpace) = pyStripL l := by
  simp [pyStripL, dropWhile_idem]

/-- Stripping removes a leading whitespace character. -/
lemma pyStripL_cons_ws (c : Char) (l : List Char) (h : isPySpace c = true) :
    pyStripL (c :: l) = pyStripL l := by
  simp [pyStripL, List.dropWhile_cons, h]

/-- If the strip of a list is non-empty, so is its whitespace-trimmed head. -/
lemma dropWhile_ne_nil_of_strip (l : List Char) (h : pyStripL l ≠ []) :
    l.dropWhile isPySpace ≠ [] := by
  intro hy
  exact h (by simp [pyStripL, hy])

/-- `TITLE_PATTERN` matched at the start of `title[:]X\n rest` (with `X`
newline-free and not all whitespace) captures exactly the whitespace-trimmed
head of `X` and leaves `\n rest` as the remainder. -/
lemma findTitle_first_line (tL sepL xL restL : List Char)
    (ht : stripPrefixCI titleLit tL = some [])
    (hsep : sepL = [] ∨ sepL = [':'])
    (hnc : sepL = [] → xL.head? ≠ some ':')
    (hxnl : ∀ c ∈ xL, c ≠ '\n')
    (hy : xL.dropWhile isPySpace ≠ []) :
    findTitleL (tL ++ (sepL ++ (xL ++ ('\n' :: restL)))) =
      some ([], xL.dropWhile isPySpace, '\n' :: restL) := by
  have hdropc : dropColon (sepL ++ (xL ++ ('\n' :: restL))) =
      xL ++ ('\n' :: restL) := by
    rcases hsep with h | h
    · subst h
      cases hx : xL with
      | nil => rw [hx] at hy; exact absurd rfl hy
      | cons x0 xs =>
        have h0 : x0 ≠ ':' := by
          intro h0
          exact hnc rfl (by simp [hx, h0])
        simp [dropColon, h0]
    · subst h
      simp [dropColon]
  have hw : ∀ a ∈ xL.takeWhile isPySpace, isPySpace a = true :=
    fun a ha => List.mem_takeWhile_imp ha
  have hsplit : xL ++ ('\n' :: restL) =
      xL.takeWhile isPySpace ++ (xL.dropWhile isPySpace ++ ('\n' :: restL)) := by
    rw [← List.append_assoc, List.takeWhile_append_dropWhile]
  obtain ⟨y0, ys, hys⟩ : ∃ y0 ys, xL.dropWhile isPySpace = y0 :: ys := by
    cases hd : xL.dropWhile isPySpace with
    | nil => exact absurd hd hy
    | cons y0 ys => exact ⟨y0, ys, rfl⟩
  have hy0 : isPySpace y0 = false := dropWhile_head_false xL y0 ys hys
  have hu : (xL ++ ('\n' :: restL)).dropWhile isPySpace =
      xL.dropWhile isPySpace ++ ('\n' :: restL) := by
    rw [hsplit, dropWhile_app_all _ _ hw, hys, List.cons_append,
      List.dropWhile_cons, if_neg (by simp [hy0])]
  have hymem : ∀ a ∈ xL.dropWhile isPySpace, (a != '\n') = true := by
    intro a ha
    have : a ∈ xL := (List.dropWhile_sublist isPySpace).subset ha
    simpa using hxnl a this
  have hg : (xL.dropWhile isPySpace ++ ('\n' :: restL)).takeWhile
      (· != '\n') = xL.dropWhile isPySpace := by
    rw [takeWhile_app_all _ _ hymem, List.takeWhile_cons]
    simp
  have hpost : (xL.dropWhile isPySpace ++ ('\n' :: restL)).dropWhile
      (· != '\n') = '\n' :: restL := by
    rw [dropWhile_app_all _ _ hymem, List.dropWhile_cons]
    simp
  have hmatch : matchTitleAt (tL ++ (sepL ++ (xL ++ ('\n' :: restL)))) =
      some (xL.dropWhile isPySpace, '\n' :: restL) := by
    rw [matchTitleAt, stripPrefixCI_app titleLit tL _ ht]
    simp only [hdropc, hu, hg, hpost]
  obtain ⟨tc, tL', htl⟩ : ∃ tc tL', tL = tc :: tL' := by
    cases htl : tL with
    | nil => rw [htl] at ht; exact absurd ht (by simp [titleLit, stripPrefixCI])
    | cons tc tL' => exact ⟨tc, tL', rfl⟩
  subst htl
  rw [findTitleL]
  rw [show (tc :: tL' ++ (sepL ++ (xL ++ ('\n' :: restL)))).length =
    (tL' ++ (sepL ++ (xL ++ ('\n' :: restL)))).length + 1 from by simp]
  rw [findTitleGo, hmatch]

/-- Claim C2, counterexample: for the message `"title: \nHello world"` the
first line is `Title: X` with `X` the single space (so `X` trimmed is
empty), yet the code's greedy `\s*` swallows the line break, making the
title the following line `"Hello world"` and the body empty — not title
`""` with body `"Hello world"`. -/
theorem title_line_blank_counterexample :
    pyStrip " " = "" ∧
    (processText "title: \nHello world" "Alice").1 = "Hello world" ∧
    (processText "title: \nHello world" "Alice").2 = "" :=
  ⟨by decide, by decide, by decide⟩

/-- Claim C2, amended: for a text message (without emoji markup) whose first
line is `title` (any letter case), an optional colon, then `X`, where `X`
contains no newline and at least one non-whitespace character, the resulting
title is `X` trimmed and the whole title line is removed from the body
before the line-break transformation (the remaining body is also
stripped). -/
theorem title_line_extraction_amended (t sep x rest fn : String)
    (ht : stripPrefixCI titleLit t.data = some [])
    (hsep : sep = "" ∨ sep = ":")
    (hnc : sep = "" → x.data.head? ≠ some ':')
    (hxnl : ∀ c ∈ x.data, c ≠ '\n')
    (hxe : pyStripL x.data ≠ [])
    (hem : stripEmoji (t ++ sep ++ x ++ "\n" ++ rest) =
      t ++ sep ++ x ++ "\n" ++ rest) :
    processText (t ++ sep ++ x ++ "\n" ++ rest) fn =
      (pyStrip x, String.mk (brify (pyStripL rest.data))) := by
  have hsepL : sep.data = [] ∨ sep.data = [':'] := by
    rcases hsep with h | h
    · left; rw [h]
    · right; rw [h]
  have hncL : sep.data = [] → x.data.head? ≠ some ':' := by
    intro h0
    apply hnc
    cases sep with
    | mk sdata =>
      simp only at h0
      rw [h0]
  have hfind : findTitleL
      (t.data ++ (sep.data ++ (x.data ++ ('\n' :: rest.data)))) =
      some ([], x.data.dropWhile isPySpace, '\n' :: rest.data) :=
    findTitle_first_line _ _ _ _ ht hsepL hncL hxnl
      (dropWhile_ne_nil_of_strip _ hxe)
  have hdata : (t ++ sep ++ x ++ "\n" ++ rest).data =
      t.data ++ (sep.data ++ (x.data ++ ('\n' :: rest.data))) := by
    simp [data_app, List.append_assoc]
  simp only [processText, hem, hdata, hfind]
  rw [pyStripL_dropWhile]
  simp only [List.nil_append]
  rw [pyStripL_cons_ws '\n' rest.data (by decide)]
  rfl

/-- Witness for claim C2 (amended) at the spec's concrete scenario
`"title: My Post\nHello world"`, yielding title `"My Post"` and body
`"Hello world"`. -/
theorem title_line_extraction_amended_witness :
    stripPrefixCI titleLit ("title" : String).data = some [] ∧
    pyStripL (" My Post" : String).data ≠ [] ∧
    (∀ c ∈ (" My Post" : String).data, c ≠ '\n') ∧
    processText ("title" ++ ":" ++ " My Post" ++ "\n" ++ "Hello world")
        "Alice" =
      (pyStrip " My Post",
        String.mk (brify (pyStripL ("Hello world" : String).data))) :=
  ⟨by decide, by decide, by decide,
    title_line_extraction_amended "title" ":" " My Post" "Hello world" "Alice"
      (by decide) (Or.inr rfl) (fun h => absurd h (by decide)) (by decide)
      (by decide) (by decide)⟩

/-- Witness for claim C9 at a concrete sender with handle `"alice"`. -/
theorem author_url_handling_witness :
    ("alice" : String) ≠ "" ∧
    authorUrlOf (some "alice") = some ("https://telegram.dog/" ++ "alice") ∧
    (textHandler ⟨.ok (), .ok "tok", .ok "p"⟩ "hi" "Alice"
        (some "alice")).pageRequest =
      some ⟨(processText "hi" "Alice").1, (processText "hi" "Alice").2,
        "Alice", authorUrlOf (some "alice")⟩ :=
  ⟨by decide,
    (author_url_handling "tok" "hi" "Alice" (.ok "p") (some "alice")).2.2.1
      "alice" (by decide),
    (author_url_handling "tok" "hi" "Alice" (.ok "p") (some "alice")).1⟩
